import Mathlib

/-!
# Verification of the Garbage Cleaner Pro cleanup engine

Shallow embedding of the rule-driven cleanup core of
`garbage_cleaner_pro.py`: the rule/config data model, the cleaner
engine (`enumerate_rule`, `act_on_files`, `cleanup_empty_dirs`,
`_recycle_or_quarantine_or_delete`), the pause/stop signals, and the
`SimpleScheduler` tick / add logic.

Filesystem paths are modelled as lists of path components
(`List String`).  A filesystem snapshot seen by a scan is a `FsView`:
whether the rule's base exists plus, for each glob pattern, the list of
entries `base.rglob(pattern)` yields in traversal order (each entry
carrying the metadata the engine inspects: is-directory, is-symlink,
stat success, mtime and size).  The mutable filesystem acted on by the
clean phase is a `World`: an association list from paths to byte
contents, plus the trash area and the set of directories.
The one-shot stop event is modelled by an optional step index
`stopAt`: the flag reads false before that many loop iterations have
happened and true from then on.
-/

/-- Effective action tag, the `ActionType` literal of the source. -/
inductive ActionType where
  | quarantine
  | delete
  | recycle
deriving DecidableEq

/-- The `PathRule` dataclass. `path` is kept abstract: the engine only
consults the resolved base through `FsView`, so the rule carries the
fields the embedded engine reads. -/
structure PathRule where
  name : String
  path : String
  patterns : List String
  min_age_days : Nat
  remove_empty_dirs : Bool
  action : ActionType
  enabled : Bool
deriving DecidableEq

/-- The `AppConfig` dataclass. -/
structure AppConfig where
  dry_run : Bool
  quarantine_enabled : Bool
  follow_symlinks : Bool
  max_delete_per_rule : Nat
  max_total_delete : Nat
  log_age_off_days : Nat
  hard_recycle_only : Bool
deriving DecidableEq

/-- One filesystem entry produced by `base.rglob(pattern)`, with the
metadata the enumeration loop inspects.  `statOk` is false when
`p.stat()` would raise (vanished file / permission denied): then
`older_than` returns false and the size contribution is 0. -/
structure Entry where
  path : List String
  isDir : Bool
  isSymlink : Bool
  statOk : Bool
  mtime : Int
  size : Nat
deriving DecidableEq

/-- Read-only view of the filesystem taken by one scan: existence of the
rule's resolved base and the traversal `base.rglob(pattern)` for each
pattern, in filesystem order. -/
structure FsView where
  baseExists : Bool
  rglob : String → List Entry

/-- The `ScanResult` dataclass (files are stored as paths, as the source
stores `Path` objects; `total_size` is the best-effort byte total). -/
structure ScanResult where
  rule : PathRule
  files : List (List String)
  total_size : Nat
deriving DecidableEq

/-- The one-shot stop event read at successive loop iterations: with
`stopAt = some n` the flag is set from the `n`-th check on, with
`stopAt = none` it is never set during the run. -/
def stopSet (stopAt : Option Nat) (step : Nat) : Bool :=
  match stopAt with
  | none => false
  | some n => n ≤ step

namespace CleanerEngine

/-- `CleanerEngine.older_than`: `p.stat().st_mtime < cutoff`, false when
the stat raises. -/
def older_than (e : Entry) (cutoff : Int) : Bool :=
  e.statOk && decide (e.mtime < cutoff)

/-- Accumulator of the enumeration loop: the `seen` de-dup set, the
files and size gathered so far, the number of stop-flag checks done so
far, and whether the loop returned on the stop signal. -/
structure ScanAcc where
  seen : List (List String)
  files : List (List String)
  total_size : Nat
  step : Nat
  stopped : Bool

/-- Inner loop of `enumerate_rule` over one pattern's `rglob` entries:
skip entries already seen or directories, skip symlinks unless
`follow_symlinks`, skip too-new entries when `min_age_days > 0`,
otherwise record the entry; `break` (end this pattern only) once
`len(files) >= max_delete_per_rule`; on the stop signal return what was
accumulated, marking the whole scan stopped. -/
def scanEntries (cfg : AppConfig) (rule : PathRule) (cutoff : Int)
    (stopAt : Option Nat) : List Entry → ScanAcc → ScanAcc
  | [], acc => acc
  | e :: rest, acc =>
    if stopSet stopAt acc.step then
      { acc with stopped := true }
    else
      let acc1 : ScanAcc := { acc with step := acc.step + 1 }
      if e.path ∈ acc1.seen ∨ e.isDir = true then
        scanEntries cfg rule cutoff stopAt rest acc1
      else if cfg.follow_symlinks = false ∧ e.isSymlink = true then
        scanEntries cfg rule cutoff stopAt rest acc1
      else if 0 < rule.min_age_days ∧ older_than e cutoff = false then
        scanEntries cfg rule cutoff stopAt rest acc1
      else
        let acc2 : ScanAcc :=
          { acc1 with
            seen := e.path :: acc1.seen
            files := acc1.files ++ [e.path]
            total_size := acc1.total_size + (if e.statOk then e.size else 0) }
        if cfg.max_delete_per_rule ≤ acc2.files.length then acc2
        else scanEntries cfg rule cutoff stopAt rest acc2

/-- Outer loop of `enumerate_rule` over the rule's patterns; a scan that
returned on the stop signal does not start further patterns. -/
def scanPatterns (cfg : AppConfig) (rule : PathRule) (cutoff : Int)
    (stopAt : Option Nat) (fsv : FsView) : List String → ScanAcc → ScanAcc
  | [], acc => acc
  | pat :: rest, acc =>
    if acc.stopped then acc
    else
      scanPatterns cfg rule cutoff stopAt fsv rest
        (scanEntries cfg rule cutoff stopAt (fsv.rglob pat) acc)

/-- `CleanerEngine.enumerate_rule`: empty result for a disabled rule or a
missing base, else run the pattern loops against the cutoff
`now - min_age_days*86400`. -/
def enumerate_rule (cfg : AppConfig) (rule : PathRule) (fsv : FsView)
    (now : Int) (stopAt : Option Nat) : ScanResult :=
  if rule.enabled = false then ⟨rule, [], 0⟩
  else if fsv.baseExists = false then ⟨rule, [], 0⟩
  else
    let cutoff : Int := now - rule.min_age_days * 86400
    let acc := scanPatterns cfg rule cutoff stopAt fsv rule.patterns
      ⟨[], [], 0, 0, false⟩
    ⟨rule, acc.files, acc.total_size⟩

end CleanerEngine

/-! ## The acted-on filesystem -/

/-- The mutable filesystem the clean phase acts on: files as an
association list from paths to byte contents, the platform trash area,
and the directories present (only needed by `cleanup_empty_dirs`). -/
structure World where
  fs : List (List String × List Nat)
  trash : List (List String × List Nat)
  dirs : List (List String)
deriving DecidableEq

/-- Content of the file at `p`, `none` when no such file exists. -/
def lookupFile (p : List String) (fs : List (List String × List Nat)) :
    Option (List Nat) :=
  (fs.find? (fun kv => kv.1 = p)).map (fun kv => kv.2)

/-- Remove the file at `p` (no-op when absent, as `unlink(missing_ok=True)`). -/
def removeFile (p : List String) (fs : List (List String × List Nat)) :
    List (List String × List Nat) :=
  fs.filter (fun kv => ¬ kv.1 = p)

/-- Write content `c` at path `p`, replacing any previous file there. -/
def setFile (p : List String) (c : List Nat)
    (fs : List (List String × List Nat)) : List (List String × List Nat) :=
  removeFile p fs ++ [(p, c)]

namespace CleanerEngine

/-- `CleanerEngine._resolve_action`. -/
def resolve_action (cfg : AppConfig) (rule : PathRule) : ActionType :=
  if cfg.hard_recycle_only then ActionType.recycle else rule.action

/-- `p.relative_to(base)` as used by the quarantine branch: the relative
components when `base` is a proper prefix of `p`, else (the
`ValueError` fallback) just the file's name. -/
def relParts (p base : List String) : List String :=
  if base <+: p ∧ ¬ p = base then p.drop base.length else [p.getLastD ""]

/-- `CleanerEngine._recycle_or_quarantine_or_delete` on one file.
Returns the success flag and the new world.  Under `dry_run` it returns
success immediately, touching nothing.  `send2trashAvail` models
whether the `send2trash` import succeeded.  The quarantine destination
is `quarantineRoot/rule.name/<relative path>`; the source's
`.with_suffix(p.suffix)` is the identity there because the destination
already ends in `p`'s file name, so it is not modelled separately.
`mkdir` calls only create directories in the quarantine area, which the
`dirs` component does not track (no claim inspects them). -/
def recycle_or_quarantine_or_delete (cfg : AppConfig)
    (send2trashAvail : Bool) (rule : PathRule) (base qroot : List String)
    (p : List String) (w : World) : Bool × World :=
  if cfg.dry_run then (true, w)
  else
    let action := resolve_action cfg rule
    if action = ActionType.recycle ∧ send2trashAvail = true then
      match lookupFile p w.fs with
      | none => (false, w)
      | some c =>
        (true, { w with fs := removeFile p w.fs, trash := w.trash ++ [(p, c)] })
    else if action = ActionType.delete ∨ cfg.quarantine_enabled = false then
      (true, { w with fs := removeFile p w.fs })
    else
      let dest := qroot ++ [rule.name] ++ relParts p base
      match lookupFile p w.fs with
      | none => (false, w)
      | some c => (true, { w with fs := setFile dest c (removeFile p w.fs) })

/-- Best-effort `p.stat().st_size`: 0 when the file is unreadable. -/
def sizeOf (p : List String) (fs : List (List String × List Nat)) : Nat :=
  ((lookupFile p fs).map List.length).getD 0

/-- Loop body of `act_on_files`: check the stop flag, stop once
`max_total_delete` files were acted on, act on the file, and on success
add its (pre-action) size to the freed total. -/
def actLoop (cfg : AppConfig) (send2trashAvail : Bool) (rule : PathRule)
    (base qroot : List String) (stopAt : Option Nat) :
    List (List String) → Nat → Nat → Nat → World → Nat × Nat × World
  | [], _, deleted, freed, w => (deleted, freed, w)
  | p :: rest, step, deleted, freed, w =>
    if stopSet stopAt step then (deleted, freed, w)
    else if cfg.max_total_delete ≤ deleted then (deleted, freed, w)
    else
      let size := sizeOf p w.fs
      let r := recycle_or_quarantine_or_delete cfg send2trashAvail rule
        base qroot p w
      if r.1 then actLoop cfg send2trashAvail rule base qroot stopAt rest
        (step + 1) (deleted + 1) (freed + size) r.2
      else actLoop cfg send2trashAvail rule base qroot stopAt rest
        (step + 1) deleted freed r.2

/-- `CleanerEngine.act_on_files` over a scan result's file list:
returns `(deleted_files, freed_bytes)` and the resulting world. -/
def act_on_files (cfg : AppConfig) (send2trashAvail : Bool)
    (rule : PathRule) (base qroot : List String) (files : List (List String))
    (stopAt : Option Nat) (w : World) : Nat × Nat × World :=
  actLoop cfg send2trashAvail rule base qroot stopAt files 0 0 0 w

/-- A directory is empty when no file and no other directory lies
strictly below it. -/
def dirIsEmpty (d : List String) (w : World) : Bool :=
  (w.fs.all fun kv => ¬ (d <+: kv.1 ∧ ¬ kv.1 = d)) &&
  (w.dirs.all fun d2 => ¬ (d <+: d2 ∧ ¬ d2 = d))

/-- Insert `d` into a list kept sorted by decreasing component count. -/
def insertByDepth (d : List String) : List (List String) → List (List String)
  | [] => [d]
  | x :: xs =>
    if x.length ≤ d.length then d :: x :: xs else x :: insertByDepth d xs

/-- The directories below (and including) `base`, deepest first: the
bottom-up order of `os.walk(base, topdown=False)`. -/
def walkBottomUp (base : List String) (dirs : List (List String)) :
    List (List String) :=
  (dirs.filter fun d => base <+: d).foldr insertByDepth []

/-- Loop of `cleanup_empty_dirs`: visit each directory bottom-up,
checking the stop flag at each step, and `rmdir` it when it has no
remaining entries. -/
def cleanupLoop (stopAt : Option Nat) :
    List (List String) → Nat → World → World
  | [], _, w => w
  | d :: rest, step, w =>
    if stopSet stopAt step then w
    else
      let w2 : World :=
        if dirIsEmpty d w then { w with dirs := w.dirs.filter fun x => ¬ x = d }
        else w
      cleanupLoop stopAt rest (step + 1) w2

/-- `CleanerEngine.cleanup_empty_dirs`: a no-op under `dry_run`, else a
bottom-up walk removing directories left empty under `base`. -/
def cleanup_empty_dirs (cfg : AppConfig) (base : List String)
    (stopAt : Option Nat) (w : World) : World :=
  if cfg.dry_run then w
  else cleanupLoop stopAt (walkBottomUp base w.dirs) 0 w

end CleanerEngine

/-! ## Stop / pause signals -/

/-- The engine's two threading events. -/
structure EngineSignals where
  stop : Bool
  pause : Bool
deriving DecidableEq

namespace CleanerEngine

/-- `CleanerEngine.stop`: set the stop event and clear the pause event. -/
def stopSignal (_s : EngineSignals) : EngineSignals :=
  { stop := true, pause := false }

/-- `CleanerEngine.toggle_pause`. -/
def toggle_pause (s : EngineSignals) (value : Bool) : EngineSignals :=
  if value then { s with pause := true } else { s with pause := false }

/-- Loop guard of `wait_if_paused`: keep sleeping while paused and not
stopped. -/
def waitGuard (s : EngineSignals) : Bool :=
  s.pause && !s.stop

/-- `wait_if_paused` polls the signals at successive instants; against a
signal trace `sigs` (other threads may flip the flags between polls) a
loop entered at instant `t` terminates exactly when some later poll
sees the guard false. -/
def waitTerminates (sigs : Nat → EngineSignals) (t : Nat) : Prop :=
  ∃ k, waitGuard (sigs (t + k)) = false

end CleanerEngine

/-! ## Scheduler -/

/-- One persisted schedule entry, `{name, action, time}`. -/
structure ScheduleEntry where
  name : String
  action : String
  time : String
deriving DecidableEq

/-- Scheduler state: the in-memory task list and the persisted schedule
document (`schedules.json`, written by `save_schedules`). -/
structure SchedulerState where
  tasks : List ScheduleEntry
  savedDoc : List ScheduleEntry
deriving DecidableEq

/-- Python `str.strip()` on a character list. -/
def trimChars (l : List Char) : List Char :=
  ((l.dropWhile Char.isWhitespace).reverse.dropWhile Char.isWhitespace).reverse

/-- Python `str.strip()`. -/
def trimStr (s : String) : String :=
  String.mk (trimChars s.data)

/-- Python `s.split(sep, 1)`: the pieces before and after the first
occurrence of `sep`, or `none` when `sep` does not occur (then the
two-variable unpacking in `_tick` raises and the entry is skipped). -/
def splitOnce (sep : Char) : List Char → Option (List Char × List Char)
  | [] => none
  | c :: cs =>
    if c = sep then some ([], cs)
    else
      match splitOnce sep cs with
      | none => none
      | some (a, b) => some (c :: a, b)

/-- Python `int(x)` restricted to the outcomes `_tick` distinguishes:
surrounding whitespace and one leading `+` are tolerated, then a
non-empty digit string gives its value (numeric separators and
non-ASCII digits are not modelled).  A parse failure raises in `_tick`
and skips the entry; a negative value makes `datetime.replace` raise
with the same effect, so it is folded into `none` here. -/
def pyNat? (l : List Char) : Option Nat :=
  let t := trimChars l
  let t2 := match t with
    | '+' :: rest => rest
    | other => other
  if ¬ t2 = [] ∧ t2.all Char.isDigit then
    some (t2.foldl (fun a c => a * 10 + (c.toNat - 48)) 0)
  else none

namespace SimpleScheduler

/-- Parse `t.get("time").split(":", 1)` plus the `int()` conversions of
`_tick`; any failure is caught there and skips the entry. -/
def parseHHMM (s : String) : Option (Nat × Nat) :=
  match splitOnce ':' s.data with
  | none => none
  | some (h, m) =>
    match pyNat? h, pyNat? m with
    | some hh, some mm => some (hh, mm)
    | _, _ => none

/-- One evaluation of a schedule entry inside `SimpleScheduler._tick`,
at `nowSec` seconds after local midnight: fire when `now >= target` and
`now - target < 30s`; a malformed time string or an hour/minute
`datetime.replace` rejects is skipped. -/
def tickFires (nowSec : Nat) (timeStr : String) : Bool :=
  match parseHHMM timeStr with
  | none => false
  | some (hh, mm) =>
    if hh ≤ 23 ∧ mm ≤ 59 then
      let target := hh * 3600 + mm * 60
      decide (target ≤ nowSec ∧ nowSec - target < 30)
    else false

/-- How many of the given tick instants fire a given entry (the tick
loop re-arms itself every 15 s and applies `tickFires` each time). -/
def fireTimes (ticks : List Nat) (timeStr : String) : Nat :=
  (ticks.filter fun n => tickFires n timeStr).length

/-- `SimpleScheduler.add`: append the entry to the task list and persist
the whole list. -/
def add (st : SchedulerState) (name action time_str : String) :
    SchedulerState :=
  let ts := st.tasks ++ [⟨name, action, time_str⟩]
  { tasks := ts, savedDoc := ts }

end SimpleScheduler

/-- The `_add_schedule` handler: defaults an empty name, strips the
fields, and hands them to `SimpleScheduler.add` with no validation of
the time string. -/
def addSchedule (st : SchedulerState) (nameRaw actionRaw timeRaw : String) :
    SchedulerState :=
  let nm := if trimStr nameRaw = "" then
      "Task " ++ toString (st.tasks.length + 1)
    else trimStr nameRaw
  SimpleScheduler.add st nm (trimStr actionRaw) (trimStr timeRaw)

/-! ## Concrete instances used by witnesses and counterexamples -/

/-- A live (non-dry-run) configuration with quarantine enabled and the
per-rule cap set to 3. -/
def cfgLive : AppConfig := ⟨false, true, false, 3, 200000, 30, false⟩

/-- The default-style dry-run configuration with the per-rule cap 3. -/
def cfgDry : AppConfig := ⟨true, true, false, 3, 200000, 30, false⟩

/-- A quarantine rule named `R` rooted at `/b`. -/
def ruleQ : PathRule := ⟨"R", "/b", ["*"], 0, true, ActionType.quarantine, true⟩

/-- A recycle rule named `R` rooted at `/b`. -/
def ruleRec : PathRule := ⟨"R", "/b", ["*"], 0, true, ActionType.recycle, true⟩

/-- A world holding the single file `/b/sub/a.txt` with bytes `[1,2,3]`. -/
def wOne : World := ⟨[(["b", "sub", "a.txt"], [1, 2, 3])], [], []⟩

/-- Total best-effort size (`sizeOf`) of the listed files in `fs`. -/
def sumSizes (ps : List (List String))
    (fs : List (List String × List Nat)) : Nat :=
  (ps.map fun p => CleanerEngine.sizeOf p fs).sum

/-- The same filesystem view with every entry's mtime replaced by `g`. -/
def remapMtime (g : Entry → Int) (fsv : FsView) : FsView :=
  ⟨fsv.baseExists, fun pat => (fsv.rglob pat).map fun e => { e with mtime := g e }⟩

/-- Pointwise relation between entries scanned at cutoffs `c1` and
`c2`: equal on every field the enumeration loop inspects, and on the
age-filter outcome whenever the age filter is active. -/
def scanEquiv (rule : PathRule) (c1 c2 : Int) (e1 e2 : Entry) : Prop :=
  e1.path = e2.path ∧ e1.isDir = e2.isDir ∧ e1.isSymlink = e2.isSymlink ∧
  e1.statOk = e2.statOk ∧ e1.size = e2.size ∧
  (0 < rule.min_age_days →
    CleanerEngine.older_than e1 c1 = CleanerEngine.older_than e2 c2)

/-- Entry of a plain old readable file at `/b/<nm>`, mtime 0, 7 bytes. -/
def plainEntry (nm : String) : Entry := ⟨["b", nm], false, false, true, 0, 7⟩

/-- A two-pattern rule, for the per-rule cap analysis. -/
def ruleTwoPat : PathRule :=
  ⟨"R", "/b", ["*.a", "*.b"], 0, true, ActionType.quarantine, true⟩

/-- Five `.a` files and five `.b` files, matched by the respective
patterns of `ruleTwoPat`. -/
def fsvTwoPat : FsView :=
  ⟨true, fun pat =>
    if pat = "*.a" then
      [plainEntry "1.a", plainEntry "2.a", plainEntry "3.a",
        plainEntry "4.a", plainEntry "5.a"]
    else if pat = "*.b" then
      [plainEntry "1.b", plainEntry "2.b", plainEntry "3.b",
        plainEntry "4.b", plainEntry "5.b"]
    else []⟩

/-- Ten matching files under any single pattern. -/
def fsvTen : FsView :=
  ⟨true, fun _ =>
    [plainEntry "0", plainEntry "1", plainEntry "2", plainEntry "3",
      plainEntry "4", plainEntry "5", plainEntry "6", plainEntry "7",
      plainEntry "8", plainEntry "9"]⟩

/-- A quarantine rule with a one-day age filter. -/
def ruleAge : PathRule := ⟨"R", "/b", ["*"], 1, true, ActionType.quarantine, true⟩

/-- A single readable file `/b/f` with mtime 5. -/
def fsvAge : FsView := ⟨true, fun _ => [⟨["b", "f"], false, false, true, 5, 7⟩]⟩

/-- A disabled rule. -/
def ruleOff : PathRule := ⟨"R", "/b", ["*"], 0, true, ActionType.quarantine, false⟩

/-- A signal trace: paused from the start, stop requested at instant 2. -/
def sigsDemo : Nat → EngineSignals := fun n =>
  if 2 ≤ n then CleanerEngine.stopSignal ⟨false, true⟩ else ⟨false, true⟩

/-! ## Lemmas about the file map -/

theorem mem_removeFile {kv : List String × List Nat} {p : List String}
    {fs : List (List String × List Nat)} (h : kv ∈ removeFile p fs) :
    kv ∈ fs ∧ ¬ kv.1 = p := by
  unfold removeFile at h
  have h2 := List.mem_filter.mp h
  exact ⟨h2.1, by simpa using h2.2⟩

theorem lookupFile_cons_ne {p : List String} {kv : List String × List Nat}
    {fs : List (List String × List Nat)} (h : ¬ kv.1 = p) :
    lookupFile p (kv :: fs) = lookupFile p fs := by
  unfold lookupFile
  rw [List.find?_cons_of_neg]
  simpa using h

theorem lookupFile_eq_none {p : List String}
    {fs : List (List String × List Nat)} (h : ∀ kv ∈ fs, ¬ kv.1 = p) :
    lookupFile p fs = none := by
  induction fs with
  | nil => rfl
  | cons kv rest ih =>
    rw [lookupFile_cons_ne (h kv (by simp))]
    exact ih fun x hx => h x (by simp [hx])

theorem lookupFile_append_left_none {p : List String}
    {l1 l2 : List (List String × List Nat)} (h : ∀ kv ∈ l1, ¬ kv.1 = p) :
    lookupFile p (l1 ++ l2) = lookupFile p l2 := by
  induction l1 with
  | nil => rfl
  | cons kv rest ih =>
    rw [List.cons_append, lookupFile_cons_ne (h kv (by simp))]
    exact ih fun x hx => h x (by simp [hx])

theorem lookupFile_removeFile_self (p : List String)
    (fs : List (List String × List Nat)) :
    lookupFile p (removeFile p fs) = none :=
  lookupFile_eq_none fun _ h => (mem_removeFile h).2

theorem lookupFile_setFile_self (p : List String) (c : List Nat)
    (fs : List (List String × List Nat)) :
    lookupFile p (setFile p c fs) = some c := by
  unfold setFile
  rw [lookupFile_append_left_none fun kv h => (mem_removeFile h).2]
  simp [lookupFile, List.find?]

theorem lookupFile_setFile_other {q p : List String} (c : List Nat)
    {fs : List (List String × List Nat)} (hq : ∀ kv ∈ fs, ¬ kv.1 = q)
    (hne : ¬ p = q) : lookupFile q (setFile p c fs) = none := by
  unfold setFile
  rw [lookupFile_append_left_none fun kv h => hq kv (mem_removeFile h).1]
  rw [lookupFile_cons_ne (by simpa using hne)]
  rfl

theorem relParts_append {base rel : List String} (h : ¬ rel = []) :
    CleanerEngine.relParts (base ++ rel) base = rel := by
  unfold CleanerEngine.relParts
  rw [if_pos]
  · exact List.drop_left base rel
  · refine ⟨⟨rel, rfl⟩, fun he => h ?_⟩
    have h2 : base ++ rel = base ++ ([] : List String) := by
      simpa using he
    exact List.append_cancel_left h2

/-! ## C4: quarantine round-trip -/

/-- C4: acting on a file at `basePath ++ rel` with effective action
quarantine (dry-run off, quarantine enabled) succeeds, the file's
content appears at `quarantineRoot/ruleName/<rel>`, and no file remains
at the original path. -/
theorem quarantine_roundtrip (cfg : AppConfig) (avail : Bool) (rule : PathRule)
    (base qroot rel : List String) (c : List Nat) (w : World)
    (hd : cfg.dry_run = false) (hq : cfg.quarantine_enabled = true)
    (ha : CleanerEngine.resolve_action cfg rule = ActionType.quarantine)
    (hrel : ¬ rel = [])
    (hfile : lookupFile (base ++ rel) w.fs = some c)
    (hne : ¬ qroot ++ [rule.name] ++ rel = base ++ rel) :
    (CleanerEngine.recycle_or_quarantine_or_delete cfg avail rule base qroot
        (base ++ rel) w).1 = true ∧
    lookupFile (qroot ++ [rule.name] ++ rel)
      (CleanerEngine.recycle_or_quarantine_or_delete cfg avail rule base qroot
        (base ++ rel) w).2.fs = some c ∧
    lookupFile (base ++ rel)
      (CleanerEngine.recycle_or_quarantine_or_delete cfg avail rule base qroot
        (base ++ rel) w).2.fs = none := by
  have hnoterec : ¬ (CleanerEngine.resolve_action cfg rule = ActionType.recycle
      ∧ avail = true) := by
    rw [ha]; rintro ⟨h1, _⟩; exact absurd h1 (by decide)
  have hnotdel : ¬ (CleanerEngine.resolve_action cfg rule = ActionType.delete
      ∨ cfg.quarantine_enabled = false) := by
    rw [ha, hq]; rintro (h1 | h1) <;> exact absurd h1 (by decide)
  unfold CleanerEngine.recycle_or_quarantine_or_delete
  rw [hd]
  simp only [Bool.false_eq_true, if_false, if_neg hnoterec, if_neg hnotdel,
    relParts_append hrel, hfile]
  refine ⟨trivial, ?_, ?_⟩
  · exact lookupFile_setFile_self _ _ _
  · exact lookupFile_setFile_other c
      (fun kv h => (mem_removeFile h).2) hne

/-- C4 witness: the file `/b/sub/a.txt` quarantined under rule `R` lands
at `q/R/sub/a.txt` and vanishes from its original path. -/
theorem quarantine_roundtrip_witness :
    (CleanerEngine.recycle_or_quarantine_or_delete cfgLive false ruleQ ["b"]
        ["q"] (["b"] ++ ["sub", "a.txt"]) wOne).1 = true ∧
    lookupFile (["q"] ++ [ruleQ.name] ++ ["sub", "a.txt"])
      (CleanerEngine.recycle_or_quarantine_or_delete cfgLive false ruleQ ["b"]
        ["q"] (["b"] ++ ["sub", "a.txt"]) wOne).2.fs = some [1, 2, 3] ∧
    lookupFile (["b"] ++ ["sub", "a.txt"])
      (CleanerEngine.recycle_or_quarantine_or_delete cfgLive false ruleQ ["b"]
        ["q"] (["b"] ++ ["sub", "a.txt"]) wOne).2.fs = none :=
  quarantine_roundtrip cfgLive false ruleQ ["b"] ["q"] ["sub", "a.txt"]
    [1, 2, 3] wOne rfl rfl rfl (by decide) (by decide) (by decide)

/-! ## C2: recycle without a trash facility -/

/-- C2 counterexample: with `send2trash` absent, dry-run off and
quarantine enabled, a file whose effective action is recycle is moved to
the quarantine area — its content survives at `q/R/sub/a.txt` — rather
than being removed as the claim's delete semantics would require. -/
theorem recycle_no_facility_counterexample :
    (CleanerEngine.recycle_or_quarantine_or_delete cfgLive false ruleRec ["b"]
        ["q"] ["b", "sub", "a.txt"] wOne).2.fs
      = [(["q", "R", "sub", "a.txt"], [1, 2, 3])] ∧
    ¬ (CleanerEngine.recycle_or_quarantine_or_delete cfgLive false ruleRec ["b"]
        ["q"] ["b", "sub", "a.txt"] wOne).2.fs
        = removeFile ["b", "sub", "a.txt"] wOne.fs := by decide

/-- C2 amended: when the effective action is recycle, `send2trash` is
absent and dry-run is off, the action degrades to delete only when
`quarantine_enabled` is false; with quarantine enabled the file is
moved to the quarantine area instead. -/
theorem recycle_no_facility_fallback (cfg : AppConfig) (avail : Bool)
    (rule : PathRule) (base qroot p : List String) (w : World)
    (hd : cfg.dry_run = false)
    (ha : CleanerEngine.resolve_action cfg rule = ActionType.recycle)
    (hs : avail = false) :
    CleanerEngine.recycle_or_quarantine_or_delete cfg avail rule base qroot p w
      = (if cfg.quarantine_enabled = false then
          (true, { w with fs := removeFile p w.fs })
        else
          match lookupFile p w.fs with
          | none => (false, w)
          | some c =>
            (true, { w with
                fs := setFile (qroot ++ [rule.name] ++
                  CleanerEngine.relParts p base) c (removeFile p w.fs) })) := by
  unfold CleanerEngine.recycle_or_quarantine_or_delete
  rw [hd, hs, ha]
  have h1 : ¬ (ActionType.recycle = ActionType.recycle ∧ false = true) := by
    simp
  rw [if_neg (by simp), if_neg h1]
  by_cases hq : cfg.quarantine_enabled = false
  · rw [if_pos (Or.inr hq), if_pos hq]
  · have h2 : ¬ (ActionType.recycle = ActionType.delete
        ∨ cfg.quarantine_enabled = false) := by
      rintro (h | h)
      · exact absurd h (by decide)
      · exact hq h
    rw [if_neg h2, if_neg hq]

/-- C2 amended witness: the fallback law applied to the concrete world
holding `/b/sub/a.txt`. -/
theorem recycle_no_facility_fallback_witness :
    CleanerEngine.recycle_or_quarantine_or_delete cfgLive false ruleRec ["b"]
        ["q"] ["b", "sub", "a.txt"] wOne
      = (if cfgLive.quarantine_enabled = false then
          (true, { wOne with fs := removeFile ["b", "sub", "a.txt"] wOne.fs })
        else
          match lookupFile ["b", "sub", "a.txt"] wOne.fs with
          | none => (false, wOne)
          | some c =>
            (true, { wOne with
                fs := setFile (["q"] ++ [ruleRec.name] ++
                  CleanerEngine.relParts ["b", "sub", "a.txt"] ["b"]) c
                  (removeFile ["b", "sub", "a.txt"] wOne.fs) })) :=
  recycle_no_facility_fallback cfgLive false ruleRec ["b"] ["q"]
    ["b", "sub", "a.txt"] wOne rfl rfl rfl

/-! ## C1: dry-run invariant -/

/-- Under `dry_run`, every per-file action reports success and leaves
the world untouched. -/
theorem recycle_dry (cfg : AppConfig) (avail : Bool) (rule : PathRule)
    (base qroot p : List String) (w : World) (hd : cfg.dry_run = true) :
    CleanerEngine.recycle_or_quarantine_or_delete cfg avail rule base qroot p w
      = (true, w) := by
  unfold CleanerEngine.recycle_or_quarantine_or_delete
  rw [if_pos hd]

/-- Under `dry_run`, the act loop never changes the world, whatever the
stop signal does. -/
theorem actLoop_dry_world (cfg : AppConfig) (avail : Bool) (rule : PathRule)
    (base qroot : List String) (stopAt : Option Nat) (hd : cfg.dry_run = true) :
    ∀ (files : List (List String)) (step deleted freed : Nat) (w : World),
      (CleanerEngine.actLoop cfg avail rule base qroot stopAt files step
        deleted freed w).2.2 = w := by
  intro files
  induction files with
  | nil => intro step deleted freed w; rfl
  | cons p rest ih =>
    intro step deleted freed w
    simp only [CleanerEngine.actLoop,
      recycle_dry cfg avail rule base qroot p w hd]
    split
    · rfl
    · split
      · rfl
      · exact ih (step + 1) (deleted + 1) _ w

/-- Under `dry_run` with no stop signal, the act loop counts every file
up to `max_total_delete` as acted on and totals their sizes. -/
theorem actLoop_dry_counts (cfg : AppConfig) (avail : Bool) (rule : PathRule)
    (base qroot : List String) (hd : cfg.dry_run = true) :
    ∀ (files : List (List String)) (step deleted freed : Nat) (w : World),
      CleanerEngine.actLoop cfg avail rule base qroot none files step
        deleted freed w
        = (deleted + min files.length (cfg.max_total_delete - deleted),
           freed + sumSizes (files.take (cfg.max_total_delete - deleted)) w.fs,
           w) := by
  intro files
  induction files with
  | nil =>
    intro step deleted freed w
    simp [CleanerEngine.actLoop, sumSizes]
  | cons p rest ih =>
    intro step deleted freed w
    simp only [CleanerEngine.actLoop,
      recycle_dry cfg avail rule base qroot p w hd]
    have hstop : stopSet none step = false := rfl
    rw [hstop]
    by_cases hcap : cfg.max_total_delete ≤ deleted
    · rw [if_neg (by simp), if_pos hcap]
      have h0 : cfg.max_total_delete - deleted = 0 := by omega
      simp [h0, sumSizes]
    · rw [if_neg (by simp), if_neg hcap, if_pos (by trivial)]
      rw [ih (step + 1) (deleted + 1) (freed + CleanerEngine.sizeOf p w.fs) w]
      have h1 : cfg.max_total_delete - deleted
          = (cfg.max_total_delete - (deleted + 1)) + 1 := by omega
      rw [h1, List.take_succ_cons]
      refine Prod.ext ?_ (Prod.ext ?_ rfl)
      · simp only [List.length_cons]
        omega
      · simp only [sumSizes, List.map_cons, List.sum_cons]
        omega

/-- C1: with `dry_run` on, `act_on_files` leaves the world byte-for-byte
unchanged (for any stop signal), reports `filesActed` and `bytesFreed`
as if every action up to `max_total_delete` succeeded (when no stop
signal interferes), and `cleanup_empty_dirs` is a no-op. -/
theorem act_dry_run_invariant (cfg : AppConfig) (avail : Bool) (rule : PathRule)
    (base qroot : List String) (files : List (List String)) (w : World)
    (stopAt : Option Nat) (hd : cfg.dry_run = true) :
    (CleanerEngine.act_on_files cfg avail rule base qroot files stopAt
        w).2.2 = w ∧
    CleanerEngine.act_on_files cfg avail rule base qroot files none w
      = (min files.length cfg.max_total_delete,
         sumSizes (files.take cfg.max_total_delete) w.fs, w) ∧
    CleanerEngine.cleanup_empty_dirs cfg base stopAt w = w := by
  refine ⟨actLoop_dry_world cfg avail rule base qroot stopAt hd files 0 0 0 w,
    ?_, ?_⟩
  · unfold CleanerEngine.act_on_files
    rw [actLoop_dry_counts cfg avail rule base qroot hd files 0 0 0 w]
    simp
  · unfold CleanerEngine.cleanup_empty_dirs
    rw [if_pos hd]

/-- C1 witness: one enumerated file, dry run: counts say one file of
three bytes freed, yet the world and its directories are untouched. -/
theorem act_dry_run_invariant_witness :
    (CleanerEngine.act_on_files cfgDry false ruleQ ["b"] ["q"]
        [["b", "sub", "a.txt"]] none wOne).2.2 = wOne ∧
    CleanerEngine.act_on_files cfgDry false ruleQ ["b"] ["q"]
        [["b", "sub", "a.txt"]] none wOne
      = (min [["b", "sub", "a.txt"]].length cfgDry.max_total_delete,
         sumSizes ([["b", "sub", "a.txt"]].take cfgDry.max_total_delete)
           wOne.fs, wOne) ∧
    CleanerEngine.cleanup_empty_dirs cfgDry ["b"] none wOne = wOne :=
  act_dry_run_invariant cfgDry false ruleQ ["b"] ["q"] [["b", "sub", "a.txt"]]
    wOne none rfl

/-! ## C3: per-rule cap enforcement -/

/-- One pattern's scan adds files only until the cap is reached, plus
at most the single file appended before the cap test that breaks the
pattern loop. -/
theorem scanEntries_len_le (cfg : AppConfig) (rule : PathRule) (cutoff : Int)
    (stopAt : Option Nat) :
    ∀ (es : List Entry) (acc : CleanerEngine.ScanAcc),
      (CleanerEngine.scanEntries cfg rule cutoff stopAt es acc).files.length
        ≤ max cfg.max_delete_per_rule (acc.files.length + 1) := by
  intro es
  induction es with
  | nil =>
    intro acc
    simp only [CleanerEngine.scanEntries]
    omega
  | cons e rest ih =>
    intro acc
    simp only [CleanerEngine.scanEntries]
    split
    · simp only []
      omega
    · split
      · simpa using ih { acc with step := acc.step + 1 }
      · split
        · simpa using ih { acc with step := acc.step + 1 }
        · split
          · simpa using ih { acc with step := acc.step + 1 }
          · split
            · simp only [List.length_append, List.length_cons,
                List.length_nil]
              omega
            · rename_i hcap
              have h := ih { acc with
                step := acc.step + 1
                seen := e.path :: acc.seen
                files := acc.files ++ [e.path]
                total_size := acc.total_size + (if e.statOk then e.size else 0) }
              simp only [List.length_append, List.length_cons,
                List.length_nil] at h hcap ⊢
              omega

/-- Across patterns, each pattern can exceed the cap by at most one
file, because the cap check only breaks the current pattern's
traversal. -/
theorem scanPatterns_len_le (cfg : AppConfig) (rule : PathRule) (cutoff : Int)
    (stopAt : Option Nat) (fsv : FsView) :
    ∀ (pats : List String) (acc : CleanerEngine.ScanAcc),
      (CleanerEngine.scanPatterns cfg rule cutoff stopAt fsv pats
          acc).files.length
        ≤ max (max cfg.max_delete_per_rule 1) acc.files.length + pats.length := by
  intro pats
  induction pats with
  | nil =>
    intro acc
    simp only [CleanerEngine.scanPatterns, List.length_nil]
    omega
  | cons pat rest ih =>
    intro acc
    simp only [CleanerEngine.scanPatterns]
    split
    · simp only [List.length_cons]
      omega
    · have h1 := scanEntries_len_le cfg rule cutoff stopAt (fsv.rglob pat) acc
      have h2 := ih (CleanerEngine.scanEntries cfg rule cutoff stopAt
        (fsv.rglob pat) acc)
      simp only [List.length_cons]
      omega

/-- C3 amended: for an enabled rule with nonempty patterns,
`enumerate_rule` returns at most `max maxDeletePerRule 1` files for the
first pattern plus at most one extra file per additional pattern. -/
theorem cap_enforcement_bound (cfg : AppConfig) (rule : PathRule) (fsv : FsView)
    (now : Int) (stopAt : Option Nat) (pat : String) (rest : List String)
    (hpat : rule.patterns = pat :: rest) :
    (CleanerEngine.enumerate_rule cfg rule fsv now stopAt).files.length
      ≤ max cfg.max_delete_per_rule 1 + rest.length := by
  unfold CleanerEngine.enumerate_rule
  split
  · simp
  · split
    · simp
    · simp only [hpat, CleanerEngine.scanPatterns]
      rw [if_neg (by simp)]
      have h1 := scanEntries_len_le cfg rule
        (now - rule.min_age_days * 86400) stopAt (fsv.rglob pat)
        ⟨[], [], 0, 0, false⟩
      have h2 := scanPatterns_len_le cfg rule
        (now - rule.min_age_days * 86400) stopAt fsv rest
        (CleanerEngine.scanEntries cfg rule
          (now - rule.min_age_days * 86400) stopAt (fsv.rglob pat)
          ⟨[], [], 0, 0, false⟩)
      simp only [List.length_nil] at h1 h2 ⊢
      omega

/-- C3 counterexample: with `maxDeletePerRule = 3` and two patterns
matching five files each, `enumerate_rule` returns 4 files — the cap
check `break`s only the inner per-pattern loop, so the second pattern
appends one more file before breaking. -/
theorem cap_multi_pattern_counterexample :
    ¬ ((CleanerEngine.enumerate_rule cfgLive ruleTwoPat fsvTwoPat 1000
        none).files.length ≤ cfgLive.max_delete_per_rule) ∧
    (CleanerEngine.enumerate_rule cfgLive ruleTwoPat fsvTwoPat 1000
        none).files.length = 4 := by decide

/-- C3 amended witness: a single pattern matching 10 files under cap 3
yields at most — and exactly — 3 files. -/
theorem cap_enforcement_bound_witness :
    ((CleanerEngine.enumerate_rule cfgLive ruleQ fsvTen 1000 none).files.length
      ≤ max cfgLive.max_delete_per_rule 1 + ([] : List String).length) ∧
    (CleanerEngine.enumerate_rule cfgLive ruleQ fsvTen 1000
        none).files.length = 3 :=
  ⟨cap_enforcement_bound cfgLive ruleQ fsvTen 1000 none "*" [] rfl, by decide⟩

/-! ## C7, C8, C9: scan phase properties -/

/-- C7: a disabled rule or a missing base gives the empty scan result
(no files, zero total size) with no error; `enumerate_rule` reads the
filesystem view only, so nothing is mutated. -/
theorem enumerate_disabled_or_missing_empty (cfg : AppConfig) (rule : PathRule)
    (fsv : FsView) (now : Int) (stopAt : Option Nat)
    (h : rule.enabled = false ∨ fsv.baseExists = false) :
    CleanerEngine.enumerate_rule cfg rule fsv now stopAt = ⟨rule, [], 0⟩ := by
  unfold CleanerEngine.enumerate_rule
  rcases h with h | h
  · rw [if_pos h]
  · by_cases he : rule.enabled = false
    · rw [if_pos he]
    · rw [if_neg he, if_pos h]

/-- C7 witness: the disabled rule over ten matching files scans to the
empty result. -/
theorem enumerate_disabled_or_missing_empty_witness :
    CleanerEngine.enumerate_rule cfgLive ruleOff fsvTen 1000 none
      = ⟨ruleOff, [], 0⟩ :=
  enumerate_disabled_or_missing_empty cfgLive ruleOff fsvTen 1000 none
    (Or.inl rfl)

/-- Scans of entry lists that agree on every field the loop inspects
(and on the age test whenever the age filter is active) coincide. -/
theorem scanEntries_ext (cfg : AppConfig) (rule : PathRule) (c1 c2 : Int)
    (stopAt : Option Nat) :
    ∀ {es1 es2 : List Entry}, List.Forall₂ (scanEquiv rule c1 c2) es1 es2 →
      ∀ acc : CleanerEngine.ScanAcc,
      CleanerEngine.scanEntries cfg rule c1 stopAt es1 acc
        = CleanerEngine.scanEntries cfg rule c2 stopAt es2 acc := by
  intro es1 es2 h
  induction h with
  | nil => intro acc; rfl
  | @cons e1 e2 es1t es2t hpair hrest ih =>
    intro acc
    obtain ⟨hp, hdir, hsym, hst, hsz, hold⟩ := hpair
    simp only [CleanerEngine.scanEntries]
    by_cases hs : stopSet stopAt acc.step = true
    · rw [if_pos hs, if_pos hs]
    · rw [if_neg hs, if_neg hs, hp, hdir, hsym, hst, hsz]
      by_cases h1 : e2.path ∈ acc.seen ∨ e2.isDir = true
      · rw [if_pos h1, if_pos h1]
        exact ih _
      · rw [if_neg h1, if_neg h1]
        by_cases h2 : cfg.follow_symlinks = false ∧ e2.isSymlink = true
        · rw [if_pos h2, if_pos h2]
          exact ih _
        · rw [if_neg h2, if_neg h2]
          by_cases hd : 0 < rule.min_age_days
          · rw [hold hd]
            by_cases h3 : 0 < rule.min_age_days
                ∧ CleanerEngine.older_than e2 c2 = false
            · rw [if_pos h3, if_pos h3]
              exact ih _
            · rw [if_neg h3, if_neg h3]
              by_cases h4 : cfg.max_delete_per_rule
                  ≤ (acc.files ++ [e2.path]).length
              · rw [if_pos h4, if_pos h4]
              · rw [if_neg h4, if_neg h4]
                exact ih _
          · have hn1 : ¬ (0 < rule.min_age_days
                ∧ CleanerEngine.older_than e1 c1 = false) := fun hc => hd hc.1
            have hn2 : ¬ (0 < rule.min_age_days
                ∧ CleanerEngine.older_than e2 c2 = false) := fun hc => hd hc.1
            rw [if_neg hn1, if_neg hn2]
            by_cases h4 : cfg.max_delete_per_rule
                ≤ (acc.files ++ [e2.path]).length
            · rw [if_pos h4, if_pos h4]
            · rw [if_neg h4, if_neg h4]
              exact ih _

/-- Pattern-loop version of `scanEntries_ext`. -/
theorem scanPatterns_ext (cfg : AppConfig) (rule : PathRule) (c1 c2 : Int)
    (stopAt : Option Nat) (fsv1 fsv2 : FsView) :
    ∀ (pats : List String) (acc : CleanerEngine.ScanAcc),
      (∀ pat ∈ pats, List.Forall₂ (scanEquiv rule c1 c2) (fsv1.rglob pat)
        (fsv2.rglob pat)) →
      CleanerEngine.scanPatterns cfg rule c1 stopAt fsv1 pats acc
        = CleanerEngine.scanPatterns cfg rule c2 stopAt fsv2 pats acc := by
  intro pats
  induction pats with
  | nil => intro acc _; rfl
  | cons pat rest ih =>
    intro acc h
    simp only [CleanerEngine.scanPatterns]
    by_cases hstp : acc.stopped = true
    · rw [if_pos hstp, if_pos hstp]
    · rw [if_neg hstp, if_neg hstp,
        scanEntries_ext cfg rule c1 c2 stopAt (h pat (by simp)) acc]
      exact ih _ fun q hq => h q (by simp [hq])

/-- C9 amended: two enumerations of the same filesystem view at times
`now1` and `now2` coincide provided every candidate entry is classified
the same way by the age filter at both times (in particular at equal
times, or when `min_age_days = 0`). -/
theorem enumerate_time_shift (cfg : AppConfig) (rule : PathRule) (fsv : FsView)
    (now1 now2 : Int) (stopAt : Option Nat)
    (h : ∀ pat ∈ rule.patterns, ∀ e ∈ fsv.rglob pat,
      0 < rule.min_age_days →
      CleanerEngine.older_than e (now1 - rule.min_age_days * 86400)
        = CleanerEngine.older_than e (now2 - rule.min_age_days * 86400)) :
    CleanerEngine.enumerate_rule cfg rule fsv now1 stopAt
      = CleanerEngine.enumerate_rule cfg rule fsv now2 stopAt := by
  simp only [CleanerEngine.enumerate_rule]
  by_cases he : rule.enabled = false
  · rw [if_pos he, if_pos he]
  · rw [if_neg he, if_neg he]
    by_cases hb : fsv.baseExists = false
    · rw [if_pos hb, if_pos hb]
    · rw [if_neg hb, if_neg hb]
      rw [scanPatterns_ext cfg rule (now1 - rule.min_age_days * 86400)
        (now2 - rule.min_age_days * 86400) stopAt fsv fsv rule.patterns
        ⟨[], [], 0, 0, false⟩ ?_]
      intro pat hpat
      refine List.forall₂_same.mpr fun e he2 => ?_
      exact ⟨rfl, rfl, rfl, rfl, rfl, fun hd => h pat hpat e he2 hd⟩

/-- C9 counterexample: with `minAgeDays = 1` and an unchanged
filesystem holding one file of mtime 5, a scan at `now = 86404`
(cutoff 4) returns nothing while a scan at `now = 86500` (cutoff 100)
returns the file: `enumerate` run twice with no filesystem, config or
rule change differs because the wall-clock cutoff moved. -/
theorem enumerate_time_dependence_counterexample :
    (CleanerEngine.enumerate_rule cfgLive ruleAge fsvAge 86404 none).files = []
    ∧ (CleanerEngine.enumerate_rule cfgLive ruleAge fsvAge 86500 none).files
      = [["b", "f"]]
    ∧ ¬ ((CleanerEngine.enumerate_rule cfgLive ruleAge fsvAge 86404
          none).files
        = (CleanerEngine.enumerate_rule cfgLive ruleAge fsvAge 86500
          none).files) := by decide

/-- C9 amended witness: with the one-day age filter, at 86500 and 86600
the file (mtime 5) is classified old both times and the scans coincide;
with `min_age_days = 0` the age filter is inactive, so scans at clock
readings 3 and 10 coincide outright. -/
theorem enumerate_time_shift_witness :
    (CleanerEngine.enumerate_rule cfgLive ruleAge fsvAge 86500 none
      = CleanerEngine.enumerate_rule cfgLive ruleAge fsvAge 86600 none) ∧
    (CleanerEngine.enumerate_rule cfgLive ruleQ fsvTen 3 none
      = CleanerEngine.enumerate_rule cfgLive ruleQ fsvTen 10 none) :=
  ⟨enumerate_time_shift cfgLive ruleAge fsvAge 86500 86600 none (by decide),
   enumerate_time_shift cfgLive ruleQ fsvTen 3 10 none (by decide)⟩

/-- No entry failing the active age filter is ever appended. -/
theorem scanEntries_not_mem (cfg : AppConfig) (rule : PathRule) (cutoff : Int)
    (stopAt : Option Nat) (p : List String) (hd : 0 < rule.min_age_days) :
    ∀ (es : List Entry) (acc : CleanerEngine.ScanAcc),
      (∀ e ∈ es, e.path = p → CleanerEngine.older_than e cutoff = false) →
      p ∉ acc.files →
      p ∉ (CleanerEngine.scanEntries cfg rule cutoff stopAt es acc).files := by
  intro es
  induction es with
  | nil => intro acc _ hacc; exact hacc
  | cons e rest ih =>
    intro acc h hacc
    simp only [CleanerEngine.scanEntries]
    by_cases hs : stopSet stopAt acc.step = true
    · rw [if_pos hs]; exact hacc
    · rw [if_neg hs]
      by_cases h1 : e.path ∈ acc.seen ∨ e.isDir = true
      · rw [if_pos h1]
        exact ih _ (fun x hx hpx => h x (by simp [hx]) hpx) hacc
      · rw [if_neg h1]
        by_cases h2 : cfg.follow_symlinks = false ∧ e.isSymlink = true
        · rw [if_pos h2]
          exact ih _ (fun x hx hpx => h x (by simp [hx]) hpx) hacc
        · rw [if_neg h2]
          by_cases h3 : 0 < rule.min_age_days
              ∧ CleanerEngine.older_than e cutoff = false
          · rw [if_pos h3]
            exact ih _ (fun x hx hpx => h x (by simp [hx]) hpx) hacc
          · rw [if_neg h3]
            have hep : ¬ e.path = p := fun hep =>
              h3 ⟨hd, h e (by simp) hep⟩
            have hacc2 : p ∉ acc.files ++ [e.path] := by
              intro hmem
              rcases List.mem_append.mp hmem with hm | hm
              · exact hacc hm
              · exact hep ((List.mem_singleton.mp hm).symm)
            by_cases h4 : cfg.max_delete_per_rule
                ≤ (acc.files ++ [e.path]).length
            · rw [if_pos h4]; exact hacc2
            · rw [if_neg h4]
              exact ih _ (fun x hx hpx => h x (by simp [hx]) hpx) hacc2

/-- Pattern-loop version of `scanEntries_not_mem`. -/
theorem scanPatterns_not_mem (cfg : AppConfig) (rule : PathRule) (cutoff : Int)
    (stopAt : Option Nat) (fsv : FsView) (p : List String)
    (hd : 0 < rule.min_age_days) :
    ∀ (pats : List String) (acc : CleanerEngine.ScanAcc),
      (∀ pat ∈ pats, ∀ e ∈ fsv.rglob pat, e.path = p →
        CleanerEngine.older_than e cutoff = false) →
      p ∉ acc.files →
      p ∉ (CleanerEngine.scanPatterns cfg rule cutoff stopAt fsv pats
        acc).files := by
  intro pats
  induction pats with
  | nil => intro acc _ hacc; exact hacc
  | cons pat rest ih =>
    intro acc h hacc
    simp only [CleanerEngine.scanPatterns]
    by_cases hstp : acc.stopped = true
    · rw [if_pos hstp]; exact hacc
    · rw [if_neg hstp]
      exact ih _ (fun q hq => h q (by simp [hq]))
        (scanEntries_not_mem cfg rule cutoff stopAt p hd _ acc
          (h pat (by simp)) hacc)

/-- C8: when `min_age_days > 0`, any file whose observed modification
time is strictly newer than `now - min_age_days*86400` is excluded from
the scan result; when `min_age_days = 0` the scan result is independent
of every entry's modification time (no age filter is applied). -/
theorem age_filter_correct (cfg : AppConfig) (rule : PathRule) (fsv : FsView)
    (now : Int) (stopAt : Option Nat) :
    ((0 < rule.min_age_days) → ∀ p : List String,
      (∀ pat ∈ rule.patterns, ∀ e ∈ fsv.rglob pat, e.path = p →
        now - rule.min_age_days * 86400 < e.mtime) →
      p ∉ (CleanerEngine.enumerate_rule cfg rule fsv now stopAt).files) ∧
    (rule.min_age_days = 0 → ∀ g : Entry → Int,
      CleanerEngine.enumerate_rule cfg rule (remapMtime g fsv) now stopAt
        = CleanerEngine.enumerate_rule cfg rule fsv now stopAt) := by
  constructor
  · intro hd p h
    simp only [CleanerEngine.enumerate_rule]
    by_cases he : rule.enabled = false
    · rw [if_pos he]; simp
    · rw [if_neg he]
      by_cases hb : fsv.baseExists = false
      · rw [if_pos hb]; simp
      · rw [if_neg hb]
        refine scanPatterns_not_mem cfg rule _ stopAt fsv p hd rule.patterns
          ⟨[], [], 0, 0, false⟩ (fun pat hpat e he2 hpe => ?_) (by simp)
        have hlt := h pat hpat e he2 hpe
        unfold CleanerEngine.older_than
        have : ¬ (e.mtime < now - rule.min_age_days * 86400) := by omega
        simp [this]
  · intro h0 g
    simp only [CleanerEngine.enumerate_rule, remapMtime]
    by_cases he : rule.enabled = false
    · rw [if_pos he, if_pos he]
    · rw [if_neg he, if_neg he]
      by_cases hb : fsv.baseExists = false
      · rw [if_pos hb, if_pos hb]
      · rw [if_neg hb, if_neg hb]
        rw [scanPatterns_ext cfg rule (now - rule.min_age_days * 86400)
          (now - rule.min_age_days * 86400) stopAt
          ⟨fsv.baseExists, fun pat => (fsv.rglob pat).map
            fun e => { e with mtime := g e }⟩ fsv rule.patterns
          ⟨[], [], 0, 0, false⟩ ?_]
        intro pat hpat
        simp only []
        refine List.forall₂_map_left_iff.mpr ?_
        refine List.forall₂_same.mpr fun e he2 => ?_
        exact ⟨rfl, rfl, rfl, rfl, rfl, fun hlt => absurd hlt (by omega)⟩

/-- C8 witness: the file of mtime 5 is excluded at cutoff 4; with
`min_age_days = 0`, rewriting every mtime to 42 leaves the scan
unchanged. -/
theorem age_filter_correct_witness :
    (["b", "f"] ∉ (CleanerEngine.enumerate_rule cfgLive ruleAge fsvAge 86404
      none).files) ∧
    CleanerEngine.enumerate_rule cfgLive ruleQ
        (remapMtime (fun _ => 42) fsvTen) 1000 none
      = CleanerEngine.enumerate_rule cfgLive ruleQ fsvTen 1000 none :=
  ⟨(age_filter_correct cfgLive ruleAge fsvAge 86404 none).1 (by decide)
      ["b", "f"] (by decide),
   (age_filter_correct cfgLive ruleQ fsvTen 1000 none).2 rfl (fun _ => 42)⟩

/-! ## C5, C6: scheduler; C10: stop/pause -/

/-- C5 counterexample: adding a schedule entry with the unparseable
time `banana` is not rejected — both the in-memory task list and the
persisted schedule document change. -/
theorem schedule_add_malformed_counterexample :
    SimpleScheduler.parseHHMM "banana" = none ∧
    ¬ ((addSchedule ⟨[], []⟩ "T" "clean" "banana").tasks
      = ([] : List ScheduleEntry)) ∧
    ¬ ((addSchedule ⟨[], []⟩ "T" "clean" "banana").savedDoc
      = ([] : List ScheduleEntry)) := by decide

/-- C5 amended: `_add_schedule` performs no validation of the time
string: the (stripped) entry is appended to the in-memory list and the
whole list is persisted regardless; an entry whose time string does not
parse never fires — each scheduler tick skips it. -/
theorem schedule_add_malformed_behavior (st : SchedulerState)
    (nameRaw actionRaw timeRaw : String) :
    (addSchedule st nameRaw actionRaw timeRaw).tasks
      = st.tasks ++ [⟨if trimStr nameRaw = "" then
            "Task " ++ toString (st.tasks.length + 1)
          else trimStr nameRaw, trimStr actionRaw, trimStr timeRaw⟩] ∧
    (addSchedule st nameRaw actionRaw timeRaw).savedDoc
      = (addSchedule st nameRaw actionRaw timeRaw).tasks ∧
    (SimpleScheduler.parseHHMM (trimStr timeRaw) = none →
      ∀ now : Nat, SimpleScheduler.tickFires now (trimStr timeRaw) = false) := by
  refine ⟨rfl, rfl, fun hp now => ?_⟩
  unfold SimpleScheduler.tickFires
  rw [hp]

/-- C5 amended witness: adding `banana` from the empty state stores and
persists the entry, and the entry never fires (e.g. at 02:30:05). -/
theorem schedule_add_malformed_behavior_witness :
    (addSchedule ⟨[], []⟩ "T" "clean" "banana").tasks
      = [⟨"T", "clean", "banana"⟩] ∧
    (addSchedule ⟨[], []⟩ "T" "clean" "banana").savedDoc
      = (addSchedule ⟨[], []⟩ "T" "clean" "banana").tasks ∧
    SimpleScheduler.tickFires 9005 "banana" = false :=
  ⟨(schedule_add_malformed_behavior ⟨[], []⟩ "T" "clean" "banana").1,
   (schedule_add_malformed_behavior ⟨[], []⟩ "T" "clean" "banana").2.1,
   (schedule_add_malformed_behavior ⟨[], []⟩ "T" "clean" "banana").2.2
     (by decide) 9005⟩

/-- C6 counterexample: two consecutive ticks 15 s apart (the tick loop
re-arms itself every 15 s) both fall into the 30 s window of `02:30`
and both fire: the action fires twice for that window, not at most
once. -/
theorem scheduler_double_fire_counterexample :
    SimpleScheduler.fireTimes [9005, 9020] "02:30" = 2 ∧
    ¬ SimpleScheduler.fireTimes [9005, 9020] "02:30" ≤ 1 := by decide

/-- C6 amended: a schedule entry with a parseable in-range `HH:MM` time
fires at a tick exactly when the tick's time lies in the window
`[target, target+30)`; there is no once-per-window latch, so every tick
in the window fires (up to two with the 15 s tick period), and a tick
at or after `target+30` (e.g. 02:31:00 for 02:30) does not fire. -/
theorem scheduler_window_fire (nowSec hh mm : Nat) (s : String)
    (hp : SimpleScheduler.parseHHMM s = some (hh, mm))
    (hh23 : hh ≤ 23) (mm59 : mm ≤ 59) :
    SimpleScheduler.tickFires nowSec s = true
      ↔ (hh * 3600 + mm * 60 ≤ nowSec
          ∧ nowSec < hh * 3600 + mm * 60 + 30) := by
  unfold SimpleScheduler.tickFires
  rw [hp]
  show (if hh ≤ 23 ∧ mm ≤ 59 then
      decide (hh * 3600 + mm * 60 ≤ nowSec
        ∧ nowSec - (hh * 3600 + mm * 60) < 30)
    else false) = true ↔ _
  rw [if_pos ⟨hh23, mm59⟩]
  constructor
  · intro h
    have h2 := of_decide_eq_true h
    omega
  · intro h
    apply decide_eq_true
    omega

/-- C6 amended witness: at 02:30:10 the `02:30` entry fires (and the
window law holds); at 02:31:00 it does not. -/
theorem scheduler_window_fire_witness :
    (SimpleScheduler.tickFires 9010 "02:30" = true
      ↔ (2 * 3600 + 30 * 60 ≤ 9010
          ∧ 9010 < 2 * 3600 + 30 * 60 + 30)) ∧
    SimpleScheduler.tickFires 9010 "02:30" = true ∧
    SimpleScheduler.tickFires 9060 "02:30" = false :=
  ⟨scheduler_window_fire 9010 2 30 "02:30" (by decide) (by decide) (by decide),
   by decide, by decide⟩

/-- C10: `CleanerEngine.stop` clears the pause flag and sets the stop
flag, making the `wait_if_paused` guard false; hence a polling loop
entered at any instant terminates once some later poll observes the
post-`stop()` signal state. -/
theorem stop_releases_pause (s : EngineSignals) (sigs : Nat → EngineSignals)
    (t k : Nat) (h : sigs (t + k) = CleanerEngine.stopSignal s) :
    (CleanerEngine.stopSignal s).pause = false ∧
    CleanerEngine.waitGuard (CleanerEngine.stopSignal s) = false ∧
    CleanerEngine.waitTerminates sigs t := by
  refine ⟨rfl, rfl, ⟨k, ?_⟩⟩
  rw [h]
  rfl

/-- C10 witness: on the trace that is paused from the start and stopped
at instant 2, a wait loop entered at instant 0 terminates. -/
theorem stop_releases_pause_witness :
    (CleanerEngine.stopSignal ⟨false, true⟩).pause = false ∧
    CleanerEngine.waitGuard (CleanerEngine.stopSignal ⟨false, true⟩) = false ∧
    CleanerEngine.waitTerminates sigsDemo 0 :=
  stop_releases_pause ⟨false, true⟩ sigsDemo 0 2 (by decide)
